import Mathlib

/-!
Verification of the chat/looper front-end logic of this repository
(`src/static/js/chat.js`) against its natural-language specification.

The JavaScript functions are shallowly embedded as executable Lean
definitions: strings stay `String`, JS objects become structures with
`Option` fields (`none` = `undefined`/`null`), JS truthiness of a string
is "present and nonempty", the DOM/network/localStorage effects are not
modelled (they do not feed back into the state the claims are about),
and fresh ids generated from `Date.now()` plus randomness are modelled
by a monotone counter carried in the tree state.
-/

set_option maxRecDepth 8000

namespace Chat

/-- JS truthiness of a possibly-absent string: present and nonempty. -/
def strTruthy : Option String → Bool
  | some s => !(s == "")
  | none => false

/-- JS `x || dflt` on a possibly-absent string. -/
def jsOr (o : Option String) (dflt : String) : String :=
  match o with
  | some s => if s == "" then dflt else s
  | none => dflt

/-- JS `String.prototype.trim` (modelled on the character list). -/
def jsTrim (s : String) : String :=
  ⟨((s.data.dropWhile Char.isWhitespace).reverse.dropWhile Char.isWhitespace).reverse⟩

/-- JS `String.prototype.toLowerCase` (ASCII-faithful). -/
def jsToLower (s : String) : String :=
  ⟨s.data.map Char.toLower⟩

/-- JS `s.substring(0, n)`. -/
def jsSubstringTo (s : String) (n : Nat) : String :=
  ⟨s.data.take n⟩

/-- `pat` is a prefix of the second list. -/
def listIsPrefixOf : List Char → List Char → Bool
  | [], _ => true
  | _ :: _, [] => false
  | a :: as, b :: bs => a == b && listIsPrefixOf as bs

/-- `pat` occurs as a contiguous sublist. -/
def listIsInfixOf (pat : List Char) : List Char → Bool
  | [] => pat.isEmpty
  | c :: rest => listIsPrefixOf pat (c :: rest) || listIsInfixOf pat rest

/-- JS `String.prototype.includes`. -/
def strIncludes (s pat : String) : Bool :=
  listIsInfixOf pat.data s.data

/-! ## `stripAnsiCodes` (chat.js lines 157-160)

`text.replace(/\x1b\[[0-9;]*m/g, '')`: scan left to right, delete every
leftmost match of `ESC [ [0-9;]* m`.  The character class `[0-9;]` never
contains `m`, so the greedy star needs no backtracking: a match at a
position succeeds exactly when the maximal run of digits/semicolons
after `ESC [` is followed by `m`. -/

/-- A character allowed in the SGR parameter run: `[0-9;]`. -/
def isSgrParam (c : Char) : Bool :=
  ('0' ≤ c && c ≤ '9') || c == ';'

/-- Match `[` `[0-9;]*` `m` at the head of the list (the part of the
regex after the initial `ESC`); return the remainder after `m`. -/
def matchSGRBody : List Char → Option (List Char)
  | '[' :: rest =>
    match rest.dropWhile isSgrParam with
    | 'm' :: r => some r
    | _ => none
  | _ => none

/-- One left-to-right deletion pass of the global regex replace.  Fuel
is the length of the input: every step consumes at least one character,
so `stripAnsiAux l.length l` never exhausts fuel early (the fuel-0 case
returns the remaining list unchanged, which is only reached on `[]`). -/
def stripAnsiAux : Nat → List Char → List Char
  | 0, l => l
  | _ + 1, [] => []
  | fuel + 1, c :: rest =>
    if c = '\x1b' then
      match matchSGRBody rest with
      | some r => stripAnsiAux fuel r
      | none => c :: stripAnsiAux fuel rest
    else c :: stripAnsiAux fuel rest

/-- `stripAnsiCodes(text)` from chat.js. -/
def stripAnsiCodes (s : String) : String :=
  ⟨stripAnsiAux s.data.length s.data⟩

/-- Whether the list contains a match of the SGR regex anywhere. -/
def hasSGR : List Char → Bool
  | [] => false
  | c :: rest => (c == '\x1b' && (matchSGRBody rest).isSome) || hasSGR rest

/-! ## `escapeHtml` (chat.js lines 1098-1102)

`escapeHtml` assigns the input to a DOM text node and reads back
`innerHTML`.  Per the HTML fragment serialization algorithm a text node
is serialized with `&`, `<`, `>` replaced by `&amp;`, `&lt;`, `&gt;`;
this character-level replacement is the model of the DOM round trip. -/

/-- Serialization of one text-node character. -/
def escapeHtmlChar (c : Char) : List Char :=
  if c = '&' then ['&', 'a', 'm', 'p', ';']
  else if c = '<' then ['&', 'l', 't', ';']
  else if c = '>' then ['&', 'g', 't', ';']
  else [c]

def escapeHtmlList : List Char → List Char
  | [] => []
  | c :: cs => escapeHtmlChar c ++ escapeHtmlList cs

/-- `escapeHtml(text)` from chat.js. -/
def escapeHtml (s : String) : String :=
  ⟨escapeHtmlList s.data⟩

/-- JS `String.prototype.startsWith`. -/
def jsStartsWith (s pat : String) : Bool :=
  listIsPrefixOf pat.data s.data

/-! ## `isCodeRequest` (chat.js lines 899-944) -/

/-- The `linuxCommands` array, duplicates included, exactly as in the
source. -/
def linuxCommands : List String :=
  ["ls", "cd", "mkdir", "rm", "cp", "mv", "cat", "grep", "find", "chmod",
   "chown", "tar", "zip", "unzip", "curl", "wget", "git", "npm", "pip",
   "python", "node", "java", "gcc", "make", "docker", "kubectl", "sudo",
   "apt", "yum", "yum", "grep", "awk", "sed"]

/-- The `codeKeywords` array, exactly as in the source. -/
def codeKeywords : List String :=
  ["write code", "create code", "run code", "execute code", "debug code",
   "fix code", "improve code", "refactor", "function", "class", "method",
   "python", "javascript", "java", "c++", "ruby", "go", "rust", "php",
   "code", "script", "program", "algorithm", "implement", "compile",
   "install", "import", "package", "library", "dependency",
   "api", "endpoint", "function", "loop", "if", "else", "for", "while",
   "return", "print", "console.log", "print_r", "var", "let", "const",
   "git", "commit", "push", "pull", "branch", "merge",
   "test", "unit test", "pytest", "jest", "unittest",
   "error", "bug", "exception", "traceback", "stack",
   "command", "terminal", "bash", "shell", "exec", "run",
   "pod", "container", "docker", "kubernetes", "podman",
   "file", "directory", "folder", "path", "create", "delete", "remove"]

/-- `lower.split(' ')[0]`: the longest space-free prefix. -/
def firstWordOf (lower : String) : String :=
  ⟨lower.data.takeWhile (fun c => c != ' ')⟩

/-- `isCodeRequest(prompt)` from chat.js: returns `true` when the prompt
should be routed to the looper (code execution), `false` for plain chat. -/
def isCodeRequest (prompt : String) : Bool :=
  let lower := jsTrim (jsToLower prompt)
  let firstWord := firstWordOf lower
  if linuxCommands.contains firstWord || jsStartsWith firstWord "./"
      || jsStartsWith firstWord "/" then
    true
  else if codeKeywords.any (fun kw => strIncludes lower kw) then
    true
  else if strIncludes lower "```" || strIncludes lower "def "
      || strIncludes lower "function " || strIncludes lower "class "
      || strIncludes lower "import " || strIncludes lower "from "
      || strIncludes lower "const " || strIncludes lower "let "
      || strIncludes lower "var " || strIncludes lower "print("
      || strIncludes lower "console.log" || strIncludes lower "return " then
    true
  else
    false

/-! ## Execution tree data model (chat.js lines 1533-1662, 1993-2210)

JS node objects live in `executionTree.nodes`, a plain object keyed by
the node's `id`; `Object.values` iterates in insertion order, so the
node map is an association list.  Ids built from `Date.now()` plus a
random suffix are modelled by the fresh counter `nextId` (the JS
`node.id` field always equals the node's key, so the key stands for
both). -/

/-- The structured `data` payload of a trace entry.  Absent JS fields
are `none`; a plain string payload is carried in `text`. -/
structure TraceData where
  prompt : Option String := none
  code : Option String := none
  language : Option String := none
  level : Option Int := none
  result : Option String := none
  error : Option String := none
  response : Option String := none
  preview : Option String := none
  text : Option String := none
deriving DecidableEq, Repr

/-- One entry of the `traceEntries` log (`addTrace`, chat.js 398-416):
`{type, label, data, time}` (the ISO `timestamp` is a second rendering
of `time`, dropped here). -/
structure TraceEntry where
  ttype : String
  label : String
  data : TraceData
  time : String
deriving DecidableEq, Repr

/-- An event arriving on the `/api/looper/trace-stream` SSE connection
(`traceEventSource.onmessage`, chat.js 1197-1217). -/
structure SSEEntry where
  ttype : String
  label : String
  data : TraceData
deriving DecidableEq, Repr

/-- One node of the execution tree (chat.js 1542-1558, 1593-1610,
1640-1656). -/
structure ExecNode where
  ntype : String := "command"
  state : String := "in_progress"
  prompt : Option String := none
  code : Option String := none
  language : Option String := none
  result : Option String := none
  error : Option String := none
  parentId : Option Nat := none
  children : List Nat := []
  level : Int := 0
  timestamp : String := ""
  collapsed : Bool := false
  showLLM : Bool := false
  llmResponse : Option String := none
deriving DecidableEq, Repr

/-- The `executionTree` global (chat.js 1534-1539) plus the fresh-id
counter. -/
structure ExecTree where
  rootId : Nat
  nodes : List (Nat × ExecNode)
  nextId : Nat
deriving DecidableEq, Repr

/-- `executionTree.nodes[id]`: first entry stored under the key (keys
are unique by construction). -/
def lookupNode (j : Nat) : List (Nat × ExecNode) → Option ExecNode
  | [] => none
  | (k, n) :: rest => if j = k then some n else lookupNode j rest

/-- `executionTree.nodes[id] = node`: overwrite in place if the key
exists, otherwise append in insertion order. -/
def insertNode (t : ExecTree) (id : Nat) (n : ExecNode) : ExecTree :=
  if (lookupNode id t.nodes).isSome then
    { t with nodes := t.nodes.map fun p => if p.1 = id then (id, n) else p }
  else
    { t with nodes := t.nodes ++ [(id, n)] }

/-- In-place mutation of the node stored under `id`. -/
def updateNode (t : ExecTree) (id : Nat) (f : ExecNode → ExecNode) : ExecTree :=
  { t with nodes := t.nodes.map fun p => if p.1 = id then (p.1, f p.2) else p }

/-- `createExecutionTree(prompt)` (chat.js 1533-1565): a fresh tree with
one root prompt node at level 0. -/
def createExecutionTree (prompt : String) (now : String) : ExecTree :=
  let rootNode : ExecNode :=
    { ntype := "prompt", state := "in_progress", prompt := some prompt,
      code := none, language := none, result := none, error := none,
      parentId := none, children := [], level := 0, timestamp := now,
      collapsed := false, showLLM := false, llmResponse := none }
  { rootId := 0, nodes := [(0, rootNode)], nextId := 1 }

/-- The parent resolution of `addCommandNode` (chat.js 1572-1575):
`parentId ? executionTree.nodes[parentId] :
Object.values(executionTree.nodes).find(n => n.type === 'prompt')`. -/
def findParent (t : ExecTree) (parentId : Option Nat) : Option (Nat × ExecNode) :=
  match parentId with
  | some pid => (lookupNode pid t.nodes).map fun n => (pid, n)
  | none => t.nodes.find? fun p => p.2.ntype == "prompt"

/-- `addCommandNode(code, language = 'python', parentId = null,
customLevel = null)` (chat.js 1569-1617).  Returns the updated tree and
the id of the node created (`none` when the source returns `null`). -/
def addCommandNode (t : ExecTree) (code : Option String)
    (language : Option String) (parentId : Option Nat)
    (customLevel : Option Int) (now : String) : ExecTree × Option Nat :=
  match findParent t parentId with
  | none => (t, none)
  | some (pid, parent) =>
    let nodeLevel : Int :=
      match customLevel with
      | some l => max l 1
      | none => if parent.ntype == "prompt" then 1 else parent.level + 1
    let nid := t.nextId
    let node : ExecNode :=
      { ntype := "command", state := "in_progress", prompt := none,
        code := code, language := some (language.getD "python"),
        result := none, error := none, parentId := some pid,
        children := [], level := nodeLevel, timestamp := now,
        collapsed := false, showLLM := false, llmResponse := none }
    let t1 := insertNode { t with nextId := t.nextId + 1 } nid node
    let t2 := updateNode t1 pid fun p => { p with children := p.children ++ [nid] }
    (t2, some nid)

/-- `markNodeComplete(nodeId, result = null)` (chat.js 1620-1630).
`if (result)` is a JS truthiness test: absent or empty-string results
leave the `result` field alone. -/
def markNodeComplete (t : ExecTree) (nodeId : Nat) (result : Option String) : ExecTree :=
  match lookupNode nodeId t.nodes with
  | none => t
  | some _ =>
    updateNode t nodeId fun n =>
      let n1 := { n with state := "complete" }
      match result with
      | some r => if r == "" then n1 else { n1 with result := some r }
      | none => n1

/-- `markNodeError(nodeId, error)` (chat.js 1633-1662): mark the node,
then append a fresh error child one level deeper. -/
def markNodeError (t : ExecTree) (nodeId : Nat) (error : String) (now : String) : ExecTree :=
  match lookupNode nodeId t.nodes with
  | none => t
  | some node =>
    let t1 := updateNode t nodeId fun n => { n with state := "error", error := some error }
    let eid := t1.nextId
    let errorNode : ExecNode :=
      { ntype := "error", state := "error", prompt := none, code := none,
        language := none, result := none, error := some error,
        parentId := some nodeId, children := [], level := node.level + 1,
        timestamp := now, collapsed := false, showLLM := false,
        llmResponse := none }
    let t2 := insertNode { t1 with nextId := t1.nextId + 1 } eid errorNode
    updateNode t2 nodeId fun n => { n with children := n.children ++ [eid] }

/-! ## `findNodeAtLevel` (chat.js 2188-2209)

The inner `findAtLevel` does a preorder walk counting structural depth
(it compares its own `level` counter, not the nodes' `level` fields).
The JS recursion is unbounded; the model carries fuel, with
`t.nodes.length + 1` fuel at the top call — enough for any acyclic
tree, which is the only shape the mutating operations build. -/

def findAtLevelAux (t : ExecTree) : Nat → Nat → Int → Int → Option (Nat × ExecNode)
  | 0, _, _, _ => none
  | fuel + 1, nid, level, target =>
    match lookupNode nid t.nodes with
    | none => none
    | some node =>
      if level = target then some (nid, node)
      else node.children.findSome? fun cid => findAtLevelAux t fuel cid (level + 1) target

/-- `findNodeAtLevel(rootId, targetLevel)` (chat.js 2188-2209). -/
def findNodeAtLevel (t : ExecTree) (rootId : Nat) (target : Int) : Option (Nat × ExecNode) :=
  match lookupNode rootId t.nodes with
  | none => none
  | some root =>
    if target = 0 then some (rootId, root)
    else findAtLevelAux t (t.nodes.length + 1) rootId 0 target

/-! ## `updateExecutionTreeFromTrace` (chat.js 2079-2186) -/

/-- The `else` fallback of the result branch of
`updateExecutionTreeFromTrace`: complete the root's last in-progress
child (chat.js 2136-2146). -/
def updateTreeFallbackComplete (t : ExecTree) (result : Option String) : ExecTree :=
  match lookupNode t.rootId t.nodes with
  | some rootNode =>
    if rootNode.children.length > 0 then
      match rootNode.children.getLast? with
      | some lastChildId =>
        match lookupNode lastChildId t.nodes with
        | some lastChild =>
          if lastChild.state == "in_progress" then
            markNodeComplete t lastChildId result
          else t
        | none => t
      | none => t
    else t
  | none => t

/-- The `else` fallback of the error branch of
`updateExecutionTreeFromTrace`: fail the root's last in-progress child
(chat.js 2159-2169). -/
def updateTreeFallbackError (t : ExecTree) (error : String) (now : String) : ExecTree :=
  match lookupNode t.rootId t.nodes with
  | some rootNode =>
    if rootNode.children.length > 0 then
      match rootNode.children.getLast? with
      | some lastChildId =>
        match lookupNode lastChildId t.nodes with
        | some lastChild =>
          if lastChild.state == "in_progress" then
            markNodeError t lastChildId error now
          else t
        | none => t
      | none => t
    else t
  | none => t

/-- The `entryLevel` read from a trace entry:
`entryData?.level !== undefined ? Math.max(entryData.level, 1) : 1`. -/
def traceEntryLevel (e : SSEEntry) : Int :=
  match e.data.level with
  | some l => max l 1
  | none => 1

/-- First if-block of `updateExecutionTreeFromTrace` (chat.js
2096-2105): on `output` / `LLM Response`, store the response text on
the root node. -/
def traceStageLLM (e : SSEEntry) (t0 : ExecTree) : ExecTree :=
  if e.ttype == "output" && e.label == "LLM Response" then
    match lookupNode t0.rootId t0.nodes with
    | some _ =>
      updateNode t0 t0.rootId fun n =>
        { n with llmResponse := some (jsOr e.data.response (jsOr e.data.preview "No response")) }
    | none => t0
  else t0

/-- Second if-block (chat.js 2107-2120): on `process` with a code
payload, create the command node unless a node already shares the first
50 characters of its code. -/
def traceStageProcess (e : SSEEntry) (now : String) (t1 : ExecTree) : ExecTree :=
  if e.ttype == "process" && strTruthy e.data.code then
    let c := e.data.code.getD ""
    match t1.nodes.find? (fun p =>
        strTruthy p.2.code
          && jsSubstringTo (p.2.code.getD "") 50 == jsSubstringTo c 50) with
    | some _ => t1
    | none =>
      let language := jsOr e.data.language "python"
      let nodeLevel := max (traceEntryLevel e) 1
      let parentNode := findNodeAtLevel t1 t1.rootId (nodeLevel - 1)
      (addCommandNode t1 (some c) (some language)
        (some (match parentNode with
               | some (pid, _) => pid
               | none => t1.rootId))
        (some nodeLevel) now).1
  else t1

/-- Third if-block (chat.js 2122-2147): on `output` with a result
payload, complete the last in-progress child of the node found at
`entryLevel`, falling back to the root. -/
def traceStageResult (e : SSEEntry) (t2 : ExecTree) : ExecTree :=
  if e.ttype == "output" && strTruthy e.data.result then
    match findNodeAtLevel t2 t2.rootId (traceEntryLevel e) with
    | some (_, tnode) =>
      if tnode.children.length > 0 then
        match tnode.children.getLast? with
        | some lastChildId =>
          match lookupNode lastChildId t2.nodes with
          | some lastChild =>
            if lastChild.state == "in_progress" then
              markNodeComplete t2 lastChildId e.data.result
            else t2
          | none => t2
        | none => t2
      else
        updateTreeFallbackComplete t2 e.data.result
    | none => updateTreeFallbackComplete t2 e.data.result
  else t2

/-- Fourth if-block (chat.js 2149-2170): on `error` with an error
payload, fail the last in-progress child of the node found at
`entryLevel`, falling back to the root. -/
def traceStageError (e : SSEEntry) (now : String) (t3 : ExecTree) : ExecTree :=
  if e.ttype == "error" && strTruthy e.data.error then
    match findNodeAtLevel t3 t3.rootId (traceEntryLevel e) with
    | some (_, tnode) =>
      if tnode.children.length > 0 then
        match tnode.children.getLast? with
        | some lastChildId =>
          match lookupNode lastChildId t3.nodes with
          | some lastChild =>
            if lastChild.state == "in_progress" then
              markNodeError t3 lastChildId (e.data.error.getD "") now
            else t3
          | none => t3
        | none => t3
      else
        updateTreeFallbackError t3 (e.data.error.getD "") now
    | none => updateTreeFallbackError t3 (e.data.error.getD "") now
  else t3

/-- `updateExecutionTreeFromTrace(entry)` (chat.js 2079-2186): create a
tree from `entry.data?.prompt || 'Execution'` when none exists, then
run the four sequential if-blocks above. -/
def updateExecutionTreeFromTrace (e : SSEEntry) (now : String)
    (ot : Option ExecTree) : ExecTree :=
  let t0 :=
    match ot with
    | none => createExecutionTree (jsOr e.data.prompt "Execution") now
    | some t => t
  traceStageError e now (traceStageResult e (traceStageProcess e now (traceStageLLM e t0)))

/-! ## `updateExecutionTreeFromResponse` (chat.js 1993-2053) -/

/-- One entry of the looper response's `command_tree` array. -/
structure CmdT where
  code : Option String := none
  language : Option String := none
  level : Option Int := none
  success : Bool := false
  result : Option String := none
  error : Option String := none
deriving DecidableEq, Repr

/-- The looper response fields read by `updateExecutionTreeFromResponse`. -/
structure LooperResponse where
  prompt : Option String := none
  response : Option String := none
  command_tree : Option (List CmdT) := none
deriving DecidableEq, Repr

/-- The `forEach` body of `updateExecutionTreeFromResponse` (chat.js
2015-2048): update a node whose first 50 code characters match, or
create one at the reported level. -/
def applyResponseCmd (t : ExecTree) (cmd : CmdT) (now : String) : ExecTree :=
  let existing := t.nodes.find? fun p =>
    strTruthy p.2.code
      && jsSubstringTo (p.2.code.getD "") 50 == jsSubstringTo (cmd.code.getD "") 50
  let cmdLevel : Int :=
    match cmd.level with
    | some l => max l 1
    | none => 1
  match existing with
  | some (eid, _) =>
    if cmd.success then markNodeComplete t eid cmd.result
    else markNodeError t eid (jsOr cmd.error "Unknown error") now
  | none =>
    let parentNode := findNodeAtLevel t t.rootId (cmdLevel - 1)
    let r := addCommandNode t cmd.code cmd.language
      (some (match parentNode with
             | some (pid, _) => pid
             | none => t.rootId))
      (some cmdLevel) now
    match r.2 with
    | some nid =>
      if cmd.success then markNodeComplete r.1 nid cmd.result
      else markNodeError r.1 nid (jsOr cmd.error "Unknown error") now
    | none => r.1

/-- `updateExecutionTreeFromResponse(response)` (chat.js 1993-2053). -/
def updateExecutionTreeFromResponse (resp : LooperResponse) (now : String)
    (ot : Option ExecTree) : Option ExecTree :=
  match resp.command_tree with
  | none => ot
  | some cmds =>
    let ot1 :=
      match ot with
      | none => if strTruthy resp.prompt then some (createExecutionTree (resp.prompt.getD "") now) else none
      | some t => some t
    match ot1 with
    | none => none
    | some t =>
      let t1 :=
        match lookupNode t.rootId t.nodes with
        | some _ =>
          updateNode t t.rootId fun n =>
            let n1 := { n with state := "complete" }
            if strTruthy resp.response then { n1 with llmResponse := resp.response } else n1
        | none => t
      some (cmds.foldl (fun acc cmd => applyResponseCmd acc cmd now) t1)

/-! ## Chat page state and event handlers (chat.js 398-416, 476-491,
621-643, 1105-1262) -/

/-- A chat message (`messages` array element); only the fields the
claims touch. -/
structure Message where
  role : String := ""
  content : String := ""
  mtype : String := ""
deriving DecidableEq, Repr

/-- The mutable globals of the chat page that the claims are about:
`isLoading`, `isLooping`, the widget flags set by `setLoopingState`,
`messages`, `traceEntries` and `executionTree`. -/
structure ChatState where
  isLoading : Bool := false
  isLooping : Bool := false
  stopVisible : Bool := false
  sendDisabled : Bool := false
  inputDisabled : Bool := false
  messages : List Message := []
  traceEntries : List TraceEntry := []
  tree : Option ExecTree := none
deriving DecidableEq, Repr

/-- `setLoopingState(looping)` (chat.js 621-626). -/
def setLoopingState (looping : Bool) (s : ChatState) : ChatState :=
  { s with isLooping := looping, stopVisible := looping,
           sendDisabled := looping, inputDisabled := looping }

/-- `addTrace(type, label, data)` (chat.js 398-416): push one entry at
the tail of `traceEntries` (the DOM render and localStorage save have
no effect on this state). -/
def addTrace (ttype label : String) (data : TraceData) (now : String)
    (s : ChatState) : ChatState :=
  { s with traceEntries := s.traceEntries ++ [⟨ttype, label, data, now⟩] }

/-- The trace entry recorded by the stop button. -/
def stopMarker (now : String) : TraceEntry :=
  ⟨"input", "Looper Stopped",
   { text := some "User requested to stop the execution" }, now⟩

/-- The `traceStop` click handler (chat.js 629-643): no-op unless
looping; otherwise POST `/api/looper/stop` (external), clear the
looping state and record the stop marker. -/
def stopClick (now : String) (s : ChatState) : ChatState :=
  if s.isLooping then
    addTrace "input" "Looper Stopped"
      { text := some "User requested to stop the execution" } now
      (setLoopingState false s)
  else s

/-- `clearTrace()` (chat.js 476-491): reset the entry log. -/
def clearTrace (s : ChatState) : ChatState :=
  { s with traceEntries := [] }

/-- `traceEventSource.onmessage` (chat.js 1197-1217): a `done` event
only closes the stream; any other event is recorded with `addTrace` and
drives `updateExecutionTreeFromTrace`. -/
def traceStreamMessage (e : SSEEntry) (now : String) (s : ChatState) : ChatState :=
  if e.ttype == "done" then s
  else
    let s1 := addTrace e.ttype e.label e.data now s
    { s1 with tree := some (updateExecutionTreeFromTrace e now s1.tree) }

/-- Where `sendMessage` routes a submitted prompt. -/
inductive SendAction where
  | ignored
  | terminalInput
  | terminalCommand
  | looper
  | chat
deriving DecidableEq, Repr

/-- The entry of `sendMessage()` (chat.js 1105-1262) up to its first
suspension point: the empty/busy guard, the execution-tree creation for
code requests, the terminal-mode dispatch, and otherwise the push of
the user message, the loading flags and the choice between the
`/api/looper/run` and `/api/chat` endpoints. -/
def sendMessageStart (raw : String) (chatMode terminalMode terminalWaiting : Bool)
    (now : String) (s : ChatState) : ChatState × SendAction :=
  let content := jsTrim raw
  if content == "" || s.isLoading then (s, .ignored)
  else
    let useLooper := isCodeRequest content
    let s0 := if useLooper then { s with tree := some (createExecutionTree content now) } else s
    if !chatMode && terminalMode then
      if terminalWaiting then (s0, .terminalInput) else (s0, .terminalCommand)
    else
      let userMsg : Message := { role := "user", content := content, mtype := "user" }
      let s1 := { s0 with messages := s0.messages ++ [userMsg] }
      let s2 := setLoopingState true { s1 with isLoading := true, sendDisabled := true, inputDisabled := true }
      if useLooper then (s2, .looper) else (s2, .chat)

/-! ## The code-block fragment of `renderMessages` (chat.js 1033-1057)

`renderMessages` builds the message-list HTML; for an assistant message
with code blocks each block renders through the template below.  The
dynamic parts are `block.exit_code`, `block.language` (interpolated
raw), the pod badge, `escapeHtml(block.output)` and the optional access
info (escaped). -/

/-- One entry of `msg.code_blocks`. -/
structure CodeBlock where
  language : String := ""
  output : String := ""
  exit_code : Int := 0
  ran_in_pod : Bool := false
  access_info : Option String := none
deriving DecidableEq, Repr

/-- The HTML produced for one code block (chat.js 1033-1057). -/
def renderCodeBlockHtml (b : CodeBlock) : String :=
  let podBadge := if b.ran_in_pod then "<span class=\"pod-badge\">Pod</span>" else ""
  let accessInfo :=
    if strTruthy b.access_info then
      "<div class=\"access-info\">" ++ escapeHtml (b.access_info.getD "") ++ "</div>"
    else ""
  "\n                <div class=\"command-output\" style=\"margin-top: 12px;\">\n"
    ++ "                    <div class=\"command-header\" onclick=\"toggleCommandOutput(this.parentElement)\">\n"
    ++ "                        <div class=\"command-title\">\n"
    ++ "                            <span class=\"exit-code "
    ++ (if b.exit_code = 0 then "success" else "error")
    ++ "\">" ++ toString b.exit_code ++ "</span>\n"
    ++ "                            <span>Code: " ++ b.language ++ "</span>\n"
    ++ "                            " ++ podBadge ++ "\n"
    ++ "                        </div>\n"
    ++ "                        <span class=\"command-toggle\">▼</span>\n"
    ++ "                    </div>\n"
    ++ "                    <div class=\"command-body\">" ++ escapeHtml b.output ++ "</div>\n"
    ++ "                    " ++ accessInfo ++ "\n"
    ++ "                </div>\n            "

/-! ## Well-formedness of tree states

The JS ids (`Date.now()` plus a random suffix) never collide; in the
counter model this is the statement that every key in the node map is
below `nextId`, and that keys are distinct. `createExecutionTree`
establishes it and every mutation preserves it. -/

/-- Every node key is below the fresh counter and keys are distinct. -/
def TreeWF (t : ExecTree) : Prop :=
  (∀ p ∈ t.nodes, p.1 < t.nextId) ∧ (t.nodes.map Prod.fst).Nodup

instance : DecidablePred TreeWF := fun t => by
  unfold TreeWF; infer_instance

/-- The spec invariant on levels: the root prompt carries level 0 and
every child's `level` is its parent's `level + 1`. -/
def levelOk (t : ExecTree) : Bool :=
  t.nodes.all fun p =>
    match p.2.parentId with
    | none => p.2.level == 0
    | some pid =>
      match lookupNode pid t.nodes with
      | some par => p.2.level == par.level + 1
      | none => false

/-- Prompt-type nodes sit at level 0 (they are only ever created as
roots). -/
def promptLevel0 (t : ExecTree) : Bool :=
  t.nodes.all fun p => !(p.2.ntype == "prompt") || p.2.level == 0

/-- `t'` keeps every node of `t` and only ever appends to its
`children`. -/
def childPrefix (t t' : ExecTree) : Prop :=
  ∀ id n, lookupNode id t.nodes = some n →
    ∃ n', lookupNode id t'.nodes = some n' ∧ n.children <+: n'.children

/-- `t'` keeps the `state`, `result` and `error` of every node of `t`
that is already terminal (not `in_progress`). -/
def preservesSRE (t t' : ExecTree) : Prop :=
  ∀ id n, lookupNode id t.nodes = some n → n.state ≠ "in_progress" →
    ∃ n', lookupNode id t'.nodes = some n' ∧ n'.state = n.state
      ∧ n'.result = n.result ∧ n'.error = n.error

/-- Trees reachable from `t` by the chat.js mutations (children-only
update functions allowed). -/
inductive TreeOps : ExecTree → ExecTree → Prop where
  | refl (t : ExecTree) : TreeOps t t
  | addCmd (t u : ExecTree) (code lang : Option String) (pid : Option Nat)
      (lvl : Option Int) (now : String) :
      TreeOps t u → TreeOps t (addCommandNode u code lang pid lvl now).1
  | markC (t u : ExecTree) (nid : Nat) (res : Option String) :
      TreeOps t u → TreeOps t (markNodeComplete u nid res)
  | markE (t u : ExecTree) (nid : Nat) (err now : String) :
      TreeOps t u → TreeOps t (markNodeError u nid err now)
  | upd (t u : ExecTree) (id : Nat) (f : ExecNode → ExecNode) :
      TreeOps t u → (∀ n, (f n).children = n.children) →
      TreeOps t (updateNode u id f)

/-- Trees reachable from `t` by the mutations the trace handler
performs: `markNodeComplete`/`markNodeError` only fire on a node whose
state is `in_progress`, and the only plain update is the `llmResponse`
write on the root. -/
inductive TreeOpsG : ExecTree → ExecTree → Prop where
  | refl (t : ExecTree) : TreeOpsG t t
  | addCmd (t u : ExecTree) (code lang : Option String) (pid : Option Nat)
      (lvl : Option Int) (now : String) :
      TreeOpsG t u → TreeOpsG t (addCommandNode u code lang pid lvl now).1
  | markC (t u : ExecTree) (nid : Nat) (m : ExecNode) (res : Option String) :
      TreeOpsG t u → lookupNode nid u.nodes = some m →
      m.state = "in_progress" → TreeOpsG t (markNodeComplete u nid res)
  | markE (t u : ExecTree) (nid : Nat) (m : ExecNode) (err now : String) :
      TreeOpsG t u → lookupNode nid u.nodes = some m →
      m.state = "in_progress" → TreeOpsG t (markNodeError u nid err now)
  | upd (t u : ExecTree) (id : Nat) (f : ExecNode → ExecNode) :
      TreeOpsG t u →
      (∀ n, (f n).children = n.children ∧ (f n).state = n.state
        ∧ (f n).result = n.result ∧ (f n).error = n.error) →
      TreeOpsG t (updateNode u id f)


/-! ## Concrete states used by the claim witnesses and counterexamples -/

/-- A chat state with a looper session in flight. -/
def busyState : ChatState := { isLoading := true, isLooping := true }

/-- The fresh chat state. -/
def idleState : ChatState := {}

/-- A trace entry reporting a command at level 3 while the tree only
has its root. -/
def c1Entry : SSEEntry :=
  { ttype := "process", label := "Executing Code",
    data := { code := some "echo hi", level := some 3 } }

/-- The tree after that entry: the new node hangs off the root with
level 3. -/
def c1Tree : ExecTree :=
  updateExecutionTreeFromTrace c1Entry "t1" (some (createExecutionTree "build it" "t0"))

/-- A chat state that is looping (stop button active). -/
def c4Busy : ChatState := { isLooping := true }

/-- A live trace event arriving over SSE. -/
def c4SSE : SSEEntry :=
  { ttype := "process", label := "Executing Code", data := { code := some "echo hi" } }

def c7Tree0 : ExecTree := createExecutionTree "run task" "t0"

def c7Tree1 : ExecTree :=
  (addCommandNode c7Tree0 (some "ls -la") (some "bash") none none "t1").1

/-- A tree whose single command node has reached the terminal state
`complete` with result `ok`. -/
def c7Tree2 : ExecTree := markNodeComplete c7Tree1 1 (some "ok")

/-- A looper response reporting the same command as failed. -/
def c7Resp : LooperResponse :=
  { prompt := some "run task", response := none,
    command_tree := some [{ code := some "ls -la", language := some "bash",
                            level := some 1, success := false, result := none,
                            error := some "boom" }] }

def c7SSE : SSEEntry :=
  { ttype := "output", label := "LLM Response", data := { response := some "done" } }

/-- The node stored under id 1 in `c7Tree2`. -/
def c7Node : ExecNode :=
  { ntype := "command", state := "complete", code := some "ls -la",
    language := some "bash", result := some "ok", parentId := some 0,
    children := [], level := 1, timestamp := "t1" }

def c8Tree : ExecTree := createExecutionTree "task" "t0"

/-- The root node of `c8Tree`. -/
def c8Root : ExecNode :=
  { ntype := "prompt", state := "in_progress", prompt := some "task",
    level := 0, timestamp := "t0" }

def c8SSE : SSEEntry := { ttype := "done", label := "", data := {} }

def c8Resp : LooperResponse := {}

/-- A code block whose language tag is an HTML element. -/
def c9Block : CodeBlock :=
  { language := "<img>", output := "", exit_code := 0, ran_in_pod := false,
    access_info := none }

/-! ## Lemmas about the string helpers -/

theorem stripAnsiAux_of_not_hasSGR :
    ∀ (fuel : Nat) (l : List Char), hasSGR l = false → stripAnsiAux fuel l = l := by
  intro fuel
  induction fuel with
  | zero => intro l _; rfl
  | succ n ih =>
    intro l h
    cases l with
    | nil => rfl
    | cons c rest =>
      simp only [hasSGR, Bool.or_eq_false_iff, Bool.and_eq_false_iff] at h
      obtain ⟨h1, h2⟩ := h
      by_cases hc : c = '\x1b'
      · have hnone : matchSGRBody rest = none := by
          rcases h1 with h1 | h1
          · exfalso; simp [hc] at h1
          · cases hm : matchSGRBody rest with
            | none => rfl
            | some r => rw [hm] at h1; simp at h1
        simp only [stripAnsiAux, if_pos hc, hnone]
        rw [ih rest h2]
      · simp only [stripAnsiAux, if_neg hc]
        rw [ih rest h2]

theorem escapeHtmlChar_no_raw (c x : Char) (hx : x ∈ escapeHtmlChar c) :
    x ≠ '<' ∧ x ≠ '>' := by
  unfold escapeHtmlChar at hx
  by_cases h1 : c = '&'
  · simp [h1] at hx
    rcases hx with h | h | h | h | h <;> subst h <;> exact ⟨by decide, by decide⟩
  · by_cases h2 : c = '<'
    · simp [h1, h2] at hx
      rcases hx with h | h | h | h <;> subst h <;> exact ⟨by decide, by decide⟩
    · by_cases h3 : c = '>'
      · simp [h1, h2, h3] at hx
        rcases hx with h | h | h | h <;> subst h <;> exact ⟨by decide, by decide⟩
      · simp [h1, h2, h3] at hx
        subst hx
        exact ⟨h2, h3⟩

theorem escapeHtmlList_no_raw :
    ∀ (l : List Char) (x : Char), x ∈ escapeHtmlList l → x ≠ '<' ∧ x ≠ '>' := by
  intro l
  induction l with
  | nil => intro x hx; simp [escapeHtmlList] at hx
  | cons c cs ih =>
    intro x hx
    simp only [escapeHtmlList, List.mem_append] at hx
    rcases hx with hx | hx
    · exact escapeHtmlChar_no_raw c x hx
    · exact ih x hx


/-! ## Association-list lemmas for the node map -/

theorem lookupNode_map_update (nodes : List (Nat × ExecNode)) (id : Nat)
    (f : ExecNode → ExecNode) (j : Nat) :
    lookupNode j (nodes.map fun p => if p.1 = id then (p.1, f p.2) else p)
      = if j = id then (lookupNode j nodes).map f else lookupNode j nodes := by
  induction nodes with
  | nil => by_cases h : j = id <;> simp [h, lookupNode]
  | cons p rest ih =>
    obtain ⟨k, n⟩ := p
    simp only [List.map_cons]
    by_cases hk : k = id
    · subst hk
      rw [if_pos (show (k, n).1 = k from rfl)]
      by_cases hj : j = k
      · subst hj
        simp [lookupNode, ih]
      · simp [lookupNode, hj, ih]
    · rw [if_neg (show ¬(k, n).1 = id from hk)]
      by_cases hj : j = k
      · subst hj
        simp [lookupNode, hk]
      · simp [lookupNode, hk, hj, ih]

theorem lookupNode_append_some {l1 l2 : List (Nat × ExecNode)} {j : Nat} {v : ExecNode}
    (h : lookupNode j l1 = some v) : lookupNode j (l1 ++ l2) = some v := by
  induction l1 with
  | nil => simp [lookupNode] at h
  | cons p rest ih =>
    obtain ⟨k, n⟩ := p
    by_cases hj : j = k
    · simp [lookupNode, hj] at h ⊢; exact h
    · simp [lookupNode, hj] at h ⊢; exact ih h

theorem lookupNode_append_none {l1 l2 : List (Nat × ExecNode)} {j : Nat}
    (h : lookupNode j l1 = none) : lookupNode j (l1 ++ l2) = lookupNode j l2 := by
  induction l1 with
  | nil => simp [lookupNode]
  | cons p rest ih =>
    obtain ⟨k, n⟩ := p
    by_cases hj : j = k
    · simp [lookupNode, hj] at h
    · simp [lookupNode, hj] at h ⊢; exact ih h

theorem lookupNode_none_of_lt (l : List (Nat × ExecNode)) (k : Nat)
    (h : ∀ p ∈ l, p.1 < k) : lookupNode k l = none := by
  induction l with
  | nil => simp [lookupNode]
  | cons p rest ih =>
    obtain ⟨k', n⟩ := p
    have hk' : k' < k := h (k', n) (List.mem_cons_self _ _)
    have hne : ¬(k = k') := by omega
    simp [lookupNode, hne]
    exact ih fun p hp => h p (List.mem_cons_of_mem _ hp)

theorem lookupNode_mem {l : List (Nat × ExecNode)} {j : Nat} {v : ExecNode}
    (h : lookupNode j l = some v) : (j, v) ∈ l := by
  induction l with
  | nil => simp [lookupNode] at h
  | cons p rest ih =>
    obtain ⟨k, n⟩ := p
    by_cases hj : j = k
    · subst hj
      simp [lookupNode] at h
      simp [h]
    · simp [lookupNode, hj] at h
      exact List.mem_cons_of_mem _ (ih h)

theorem lookupNode_eq_of_mem_nodup {l : List (Nat × ExecNode)} {k : Nat} {v : ExecNode}
    (hnd : (l.map Prod.fst).Nodup) (hm : (k, v) ∈ l) : lookupNode k l = some v := by
  induction l with
  | nil => simp at hm
  | cons p rest ih =>
    obtain ⟨k', n⟩ := p
    simp only [List.map_cons, List.nodup_cons] at hnd
    rcases List.mem_cons.mp hm with h | h
    · cases h
      simp [lookupNode]
    · have hne : k ≠ k' := by
        intro he; subst he
        exact hnd.1 (List.mem_map.mpr ⟨(k, v), h, rfl⟩)
      simp [lookupNode, hne]
      exact ih hnd.2 h

theorem keys_map_of_fst (l : List (Nat × ExecNode))
    (g : (Nat × ExecNode) → (Nat × ExecNode)) (h : ∀ p, (g p).1 = p.1) :
    (l.map g).map Prod.fst = l.map Prod.fst := by
  induction l with
  | nil => rfl
  | cons p rest ih => simp [h, ih]

/-! ## Preservation lemmas for the primitive tree mutations -/

theorem childPrefix_refl (t : ExecTree) : childPrefix t t :=
  fun _ n h => ⟨n, h, List.prefix_refl _⟩

theorem childPrefix_trans {t u v : ExecTree}
    (h1 : childPrefix t u) (h2 : childPrefix u v) : childPrefix t v := by
  intro j n hl
  obtain ⟨n', hl', hp'⟩ := h1 j n hl
  obtain ⟨n'', hl'', hp''⟩ := h2 j n' hl'
  exact ⟨n'', hl'', hp'.trans hp''⟩

theorem childPrefix_updateNode (t : ExecTree) (id : Nat) (f : ExecNode → ExecNode)
    (hf : ∀ n, n.children <+: (f n).children) :
    childPrefix t (updateNode t id f) := by
  intro j n hl
  show ∃ n', lookupNode j (t.nodes.map _) = some n' ∧ _
  rw [lookupNode_map_update]
  by_cases hj : j = id
  · subst hj
    refine ⟨f n, ?_, hf n⟩
    rw [if_pos rfl, hl]
    rfl
  · exact ⟨n, by rw [if_neg hj, hl], List.prefix_refl _⟩

theorem childPrefix_of_nodes_append {t u : ExecTree} {l : List (Nat × ExecNode)}
    (h : u.nodes = t.nodes ++ l) : childPrefix t u := by
  intro j n hl
  exact ⟨n, by rw [h]; exact lookupNode_append_some hl, List.prefix_refl _⟩

theorem preservesSRE_refl (t : ExecTree) : preservesSRE t t :=
  fun _ n h _ => ⟨n, h, rfl, rfl, rfl⟩

theorem preservesSRE_trans {t u v : ExecTree}
    (h1 : preservesSRE t u) (h2 : preservesSRE u v) : preservesSRE t v := by
  intro j n hl hs
  obtain ⟨n', hl', hs', hr', he'⟩ := h1 j n hl hs
  obtain ⟨n'', hl'', hs'', hr'', he''⟩ := h2 j n' hl' (hs' ▸ hs)
  exact ⟨n'', hl'', hs''.trans hs', hr''.trans hr', he''.trans he'⟩

theorem preservesSRE_updateNode (t : ExecTree) (id : Nat) (f : ExecNode → ExecNode)
    (hf : ∀ n, (f n).state = n.state ∧ (f n).result = n.result ∧ (f n).error = n.error) :
    preservesSRE t (updateNode t id f) := by
  intro j n hl hs
  show ∃ n', lookupNode j (t.nodes.map _) = some n' ∧ _
  rw [lookupNode_map_update]
  by_cases hj : j = id
  · subst hj
    refine ⟨f n, ?_, (hf n).1, (hf n).2.1, (hf n).2.2⟩
    rw [if_pos rfl, hl]
    rfl
  · exact ⟨n, by rw [if_neg hj, hl], rfl, rfl, rfl⟩

theorem preservesSRE_of_nodes_append {t u : ExecTree} {l : List (Nat × ExecNode)}
    (h : u.nodes = t.nodes ++ l) : preservesSRE t u := by
  intro j n hl _
  exact ⟨n, by rw [h]; exact lookupNode_append_some hl, rfl, rfl, rfl⟩

/-- With a fresh counter the JS map assignment is a plain append. -/
theorem insert_fresh_eq (t : ExecTree) (n : ExecNode)
    (h : ∀ p ∈ t.nodes, p.1 < t.nextId) :
    insertNode { t with nextId := t.nextId + 1 } t.nextId n
      = { rootId := t.rootId, nodes := t.nodes ++ [(t.nextId, n)],
          nextId := t.nextId + 1 } := by
  unfold insertNode
  have hnone : lookupNode t.nextId t.nodes = none := lookupNode_none_of_lt _ _ h
  simp [hnone]

theorem treeWF_append_fresh (t : ExecTree) (n : ExecNode) (h : TreeWF t) :
    TreeWF { rootId := t.rootId, nodes := t.nodes ++ [(t.nextId, n)],
             nextId := t.nextId + 1 } := by
  obtain ⟨hb, hnd⟩ := h
  constructor
  · intro p hp
    rcases List.mem_append.mp hp with hp | hp
    · have := hb p hp; simp; omega
    · simp at hp; simp [hp]
  · have hnotin : t.nextId ∉ t.nodes.map Prod.fst := by
      intro hmem
      obtain ⟨p, hp, he⟩ := List.mem_map.mp hmem
      have := hb p hp; omega
    simp only [List.map_append, List.map_cons, List.map_nil]
    rw [List.nodup_append]
    exact ⟨hnd, List.nodup_singleton _, by
      intro a ha hb'
      simp at hb'
      subst hb'
      exact hnotin ha⟩

theorem treeWF_updateNode (t : ExecTree) (id : Nat) (f : ExecNode → ExecNode)
    (h : TreeWF t) : TreeWF (updateNode t id f) := by
  obtain ⟨hb, hnd⟩ := h
  constructor
  · intro p hp
    obtain ⟨q, hq, he⟩ := List.mem_map.mp hp
    subst he
    show (if q.1 = id then (q.1, f q.2) else q).1 < t.nextId
    by_cases hqid : q.1 = id
    · rw [if_pos hqid]; exact hb q hq
    · rw [if_neg hqid]; exact hb q hq
  · show ((t.nodes.map _).map Prod.fst).Nodup
    rw [keys_map_of_fst]
    · exact hnd
    · intro p
      by_cases hqid : p.1 = id <;> simp [hqid]

theorem treeWF_addCommandNode (t : ExecTree) (code lang : Option String)
    (pid : Option Nat) (lvl : Option Int) (now : String) (h : TreeWF t) :
    TreeWF (addCommandNode t code lang pid lvl now).1 := by
  unfold addCommandNode
  split
  · exact h
  · dsimp only
    rw [insert_fresh_eq t _ h.1]
    exact treeWF_updateNode _ _ _ (treeWF_append_fresh t _ h)

theorem childPrefix_addCommandNode (t : ExecTree) (code lang : Option String)
    (pid : Option Nat) (lvl : Option Int) (now : String) (h : TreeWF t) :
    childPrefix t (addCommandNode t code lang pid lvl now).1 := by
  unfold addCommandNode
  split
  · exact childPrefix_refl t
  · dsimp only
    rw [insert_fresh_eq t _ h.1]
    exact childPrefix_trans (childPrefix_of_nodes_append rfl)
      (childPrefix_updateNode _ _ _ fun n => List.prefix_append _ _)

theorem preservesSRE_addCommandNode (t : ExecTree) (code lang : Option String)
    (pid : Option Nat) (lvl : Option Int) (now : String) (h : TreeWF t) :
    preservesSRE t (addCommandNode t code lang pid lvl now).1 := by
  unfold addCommandNode
  split
  · exact preservesSRE_refl t
  · dsimp only
    rw [insert_fresh_eq t _ h.1]
    exact preservesSRE_trans (preservesSRE_of_nodes_append rfl)
      (preservesSRE_updateNode _ _ _ fun n => ⟨rfl, rfl, rfl⟩)

theorem treeWF_markNodeComplete (t : ExecTree) (nid : Nat) (res : Option String)
    (h : TreeWF t) : TreeWF (markNodeComplete t nid res) := by
  unfold markNodeComplete
  split
  · exact h
  · exact treeWF_updateNode _ _ _ h

theorem childPrefix_markNodeComplete (t : ExecTree) (nid : Nat) (res : Option String) :
    childPrefix t (markNodeComplete t nid res) := by
  unfold markNodeComplete
  split
  · exact childPrefix_refl t
  · apply childPrefix_updateNode
    intro n
    cases res with
    | none => exact List.prefix_refl _
    | some r =>
      by_cases hr : (r == "") <;> simp [hr]

theorem preservesSRE_updateNode_guard (t : ExecTree) (id : Nat) (m : ExecNode)
    (f : ExecNode → ExecNode)
    (hm : lookupNode id t.nodes = some m) (hs : m.state = "in_progress") :
    preservesSRE t (updateNode t id f) := by
  intro j n hl hterm
  show ∃ n', lookupNode j (t.nodes.map _) = some n' ∧ _
  rw [lookupNode_map_update]
  have hj : ¬(j = id) := by
    intro he
    subst he
    rw [hl] at hm
    cases hm
    exact hterm hs
  exact ⟨n, by rw [if_neg hj, hl], rfl, rfl, rfl⟩

theorem preservesSRE_markNodeComplete_guard (t : ExecTree) (nid : Nat)
    (m : ExecNode) (res : Option String)
    (hm : lookupNode nid t.nodes = some m) (hs : m.state = "in_progress") :
    preservesSRE t (markNodeComplete t nid res) := by
  unfold markNodeComplete
  rw [hm]
  exact preservesSRE_updateNode_guard t nid m _ hm hs

theorem treeWF_markNodeError (t : ExecTree) (nid : Nat) (err now : String)
    (h : TreeWF t) : TreeWF (markNodeError t nid err now) := by
  unfold markNodeError
  split
  · exact h
  · dsimp only
    have h1 := treeWF_updateNode t nid
      (fun n => { n with state := "error", error := some err }) h
    rw [insert_fresh_eq _ _ h1.1]
    exact treeWF_updateNode _ _ _ (treeWF_append_fresh _ _ h1)

theorem childPrefix_markNodeError (t : ExecTree) (nid : Nat) (err now : String)
    (h : TreeWF t) : childPrefix t (markNodeError t nid err now) := by
  unfold markNodeError
  split
  · exact childPrefix_refl t
  · dsimp only
    have h1 := treeWF_updateNode t nid
      (fun n => { n with state := "error", error := some err }) h
    rw [insert_fresh_eq _ _ h1.1]
    have s1 : childPrefix t
        (updateNode t nid fun n => { n with state := "error", error := some err }) :=
      childPrefix_updateNode _ _ _ fun n => List.prefix_refl _
    refine childPrefix_trans s1 ?_
    exact childPrefix_trans (childPrefix_of_nodes_append rfl)
      (childPrefix_updateNode _ _ _ fun n => List.prefix_append _ _)

theorem preservesSRE_markNodeError_guard (t : ExecTree) (nid : Nat)
    (m : ExecNode) (err now : String)
    (hm : lookupNode nid t.nodes = some m) (hs : m.state = "in_progress")
    (h : TreeWF t) : preservesSRE t (markNodeError t nid err now) := by
  unfold markNodeError
  rw [hm]
  dsimp only
  have h1 := treeWF_updateNode t nid
    (fun n => { n with state := "error", error := some err }) h
  rw [insert_fresh_eq _ _ h1.1]
  have s1 : preservesSRE t
      (updateNode t nid fun n => { n with state := "error", error := some err }) :=
    preservesSRE_updateNode_guard t nid m _ hm hs
  refine preservesSRE_trans s1 ?_
  exact preservesSRE_trans (preservesSRE_of_nodes_append rfl)
    (preservesSRE_updateNode _ _ _ fun n => ⟨rfl, rfl, rfl⟩)

/-! ## Closure of the tree mutations performed by the handlers -/

theorem treeOps_trans {t u v : ExecTree}
    (h1 : TreeOps t u) (h2 : TreeOps u v) : TreeOps t v := by
  induction h2 with
  | refl => exact h1
  | addCmd _ code lang pid lvl now _ ih => exact TreeOps.addCmd _ _ code lang pid lvl now ih
  | markC _ nid res _ ih => exact TreeOps.markC _ _ nid res ih
  | markE _ nid err now _ ih => exact TreeOps.markE _ _ nid err now ih
  | upd _ id f _ hf ih => exact TreeOps.upd _ _ id f ih hf

theorem treeOpsG_trans {t u v : ExecTree}
    (h1 : TreeOpsG t u) (h2 : TreeOpsG u v) : TreeOpsG t v := by
  induction h2 with
  | refl => exact h1
  | addCmd _ code lang pid lvl now _ ih => exact TreeOpsG.addCmd _ _ code lang pid lvl now ih
  | markC _ nid m res _ hm hs ih => exact TreeOpsG.markC _ _ nid m res ih hm hs
  | markE _ nid m err now _ hm hs ih => exact TreeOpsG.markE _ _ nid m err now ih hm hs
  | upd _ id f _ hf ih => exact TreeOpsG.upd _ _ id f ih hf

/-- Every guarded mutation sequence is also an unguarded one. -/
theorem treeOpsG_toTreeOps {t u : ExecTree} (h : TreeOpsG t u) : TreeOps t u := by
  induction h with
  | refl => exact TreeOps.refl _
  | addCmd _ code lang pid lvl now _ ih => exact TreeOps.addCmd _ _ code lang pid lvl now ih
  | markC _ nid m res _ hm hs ih => exact TreeOps.markC _ _ nid res ih
  | markE _ nid m err now _ hm hs ih => exact TreeOps.markE _ _ nid err now ih
  | upd _ id f _ hf ih => exact TreeOps.upd _ _ id f ih fun n => (hf n).1

theorem treeOps_wf_childPrefix {t u : ExecTree} (h : TreeOps t u) (hwf : TreeWF t) :
    TreeWF u ∧ childPrefix t u := by
  induction h with
  | refl => exact ⟨hwf, childPrefix_refl t⟩
  | addCmd w code lang pid lvl now _ ih =>
    obtain ⟨hw, hc⟩ := ih
    exact ⟨treeWF_addCommandNode w code lang pid lvl now hw,
      childPrefix_trans hc (childPrefix_addCommandNode w code lang pid lvl now hw)⟩
  | markC w nid res _ ih =>
    obtain ⟨hw, hc⟩ := ih
    exact ⟨treeWF_markNodeComplete w nid res hw,
      childPrefix_trans hc (childPrefix_markNodeComplete w nid res)⟩
  | markE w nid err now _ ih =>
    obtain ⟨hw, hc⟩ := ih
    exact ⟨treeWF_markNodeError w nid err now hw,
      childPrefix_trans hc (childPrefix_markNodeError w nid err now hw)⟩
  | upd w id f _ hf ih =>
    obtain ⟨hw, hc⟩ := ih
    refine ⟨treeWF_updateNode w id f hw, childPrefix_trans hc ?_⟩
    exact childPrefix_updateNode w id f fun n => (hf n) ▸ List.prefix_refl _

theorem treeOpsG_wf_preservesSRE {t u : ExecTree} (h : TreeOpsG t u) (hwf : TreeWF t) :
    TreeWF u ∧ preservesSRE t u := by
  induction h with
  | refl => exact ⟨hwf, preservesSRE_refl t⟩
  | addCmd w code lang pid lvl now _ ih =>
    obtain ⟨hw, hc⟩ := ih
    exact ⟨treeWF_addCommandNode w code lang pid lvl now hw,
      preservesSRE_trans hc (preservesSRE_addCommandNode w code lang pid lvl now hw)⟩
  | markC w nid m res _ hm hs ih =>
    obtain ⟨hw, hc⟩ := ih
    exact ⟨treeWF_markNodeComplete w nid res hw,
      preservesSRE_trans hc (preservesSRE_markNodeComplete_guard w nid m res hm hs)⟩
  | markE w nid m err now _ hm hs ih =>
    obtain ⟨hw, hc⟩ := ih
    exact ⟨treeWF_markNodeError w nid err now hw,
      preservesSRE_trans hc (preservesSRE_markNodeError_guard w nid m err now hm hs hw)⟩
  | upd w id f _ hf ih =>
    obtain ⟨hw, hc⟩ := ih
    refine ⟨treeWF_updateNode w id f hw, preservesSRE_trans hc ?_⟩
    exact preservesSRE_updateNode w id f fun n => ⟨(hf n).2.1, (hf n).2.2.1, (hf n).2.2.2⟩

/-! ## The handlers only perform the mutations above -/

theorem treeOpsG_markC_of_guard (u : ExecTree) (nid : Nat) (m : ExecNode)
    (res : Option String) (hlook : lookupNode nid u.nodes = some m)
    (hstate : (m.state == "in_progress") = true) :
    TreeOpsG u (markNodeComplete u nid res) :=
  TreeOpsG.markC u u nid m res (TreeOpsG.refl u) hlook (by simpa using hstate)

theorem treeOpsG_markE_of_guard (u : ExecTree) (nid : Nat) (m : ExecNode)
    (err now : String) (hlook : lookupNode nid u.nodes = some m)
    (hstate : (m.state == "in_progress") = true) :
    TreeOpsG u (markNodeError u nid err now) :=
  TreeOpsG.markE u u nid m err now (TreeOpsG.refl u) hlook (by simpa using hstate)

theorem treeOpsG_fallbackComplete (u : ExecTree) (res : Option String) :
    TreeOpsG u (updateTreeFallbackComplete u res) := by
  unfold updateTreeFallbackComplete
  repeat' first | (dsimp only) | split
  all_goals first
    | exact TreeOpsG.refl _
    | (apply treeOpsG_markC_of_guard <;> assumption)

theorem treeOpsG_fallbackError (u : ExecTree) (err now : String) :
    TreeOpsG u (updateTreeFallbackError u err now) := by
  unfold updateTreeFallbackError
  repeat' first | (dsimp only) | split
  all_goals first
    | exact TreeOpsG.refl _
    | (apply treeOpsG_markE_of_guard <;> assumption)

theorem treeOpsG_stageLLM (e : SSEEntry) (u : ExecTree) :
    TreeOpsG u (traceStageLLM e u) := by
  unfold traceStageLLM
  repeat' first | (dsimp only) | split
  all_goals first
    | exact TreeOpsG.refl _
    | exact TreeOpsG.upd _ _ _ _ (TreeOpsG.refl _) (fun n => ⟨rfl, rfl, rfl, rfl⟩)

theorem treeOpsG_stageProcess (e : SSEEntry) (now : String) (u : ExecTree) :
    TreeOpsG u (traceStageProcess e now u) := by
  unfold traceStageProcess
  repeat' first | (dsimp only) | split
  all_goals first
    | exact TreeOpsG.refl _
    | exact TreeOpsG.addCmd _ _ _ _ _ _ _ (TreeOpsG.refl _)

theorem treeOpsG_stageResult (e : SSEEntry) (u : ExecTree) :
    TreeOpsG u (traceStageResult e u) := by
  unfold traceStageResult
  repeat' first | (dsimp only) | split
  all_goals first
    | exact TreeOpsG.refl _
    | exact treeOpsG_fallbackComplete _ _
    | (apply treeOpsG_markC_of_guard <;> assumption)

theorem treeOpsG_stageError (e : SSEEntry) (now : String) (u : ExecTree) :
    TreeOpsG u (traceStageError e now u) := by
  unfold traceStageError
  repeat' first | (dsimp only) | split
  all_goals first
    | exact TreeOpsG.refl _
    | exact treeOpsG_fallbackError _ _ _
    | (apply treeOpsG_markE_of_guard <;> assumption)

/-- Every update the trace handler makes on an existing tree is a
sequence of guarded primitive mutations. -/
theorem treeOpsG_fromTrace_some (e : SSEEntry) (now : String) (t : ExecTree) :
    TreeOpsG t (updateExecutionTreeFromTrace e now (some t)) := by
  unfold updateExecutionTreeFromTrace
  dsimp only
  exact treeOpsG_trans (treeOpsG_stageLLM e t)
    (treeOpsG_trans (treeOpsG_stageProcess e now _)
      (treeOpsG_trans (treeOpsG_stageResult e _) (treeOpsG_stageError e now _)))

theorem treeOps_applyResponseCmd (u : ExecTree) (cmd : CmdT) (now : String) :
    TreeOps u (applyResponseCmd u cmd now) := by
  unfold applyResponseCmd
  repeat' first | (dsimp only) | split
  all_goals first
    | exact TreeOps.refl _
    | exact TreeOps.markC _ _ _ _ (TreeOps.refl _)
    | exact TreeOps.markE _ _ _ _ _ (TreeOps.refl _)
    | exact TreeOps.markC _ _ _ _ (TreeOps.addCmd _ _ _ _ _ _ _ (TreeOps.refl _))
    | exact TreeOps.markE _ _ _ _ _ (TreeOps.addCmd _ _ _ _ _ _ _ (TreeOps.refl _))
    | exact TreeOps.addCmd _ _ _ _ _ _ _ (TreeOps.refl _)

theorem treeOps_foldl_applyResponseCmd (now : String) :
    ∀ (cmds : List CmdT) (u : ExecTree),
    TreeOps u (cmds.foldl (fun acc cmd => applyResponseCmd acc cmd now) u) := by
  intro cmds
  induction cmds with
  | nil => intro u; exact TreeOps.refl u
  | cons cmd rest ih =>
    intro u
    simp only [List.foldl_cons]
    exact treeOps_trans (treeOps_applyResponseCmd u cmd now) (ih _)

/-- Every update the response handler makes on an existing tree is a
sequence of primitive mutations. -/
theorem treeOps_fromResponse_some (resp : LooperResponse) (now : String) (t : ExecTree) :
    TreeOps t ((updateExecutionTreeFromResponse resp now (some t)).getD t) := by
  unfold updateExecutionTreeFromResponse
  split
  · exact TreeOps.refl t
  · dsimp only [Option.getD]
    split
    · refine treeOps_trans ?_ (treeOps_foldl_applyResponseCmd now _ _)
      exact TreeOps.upd _ _ _ _ (TreeOps.refl _)
        (fun n => by cases htr : strTruthy resp.response <;> simp [htr])
    · exact treeOps_foldl_applyResponseCmd now _ _

/-! ## Level-invariant lemmas -/

theorem levelOk_updateNode (t : ExecTree) (id : Nat) (f : ExecNode → ExecNode)
    (hlv : ∀ n, (f n).level = n.level) (hpa : ∀ n, (f n).parentId = n.parentId)
    (h : levelOk t = true) : levelOk (updateNode t id f) = true := by
  unfold levelOk at h ⊢
  rw [List.all_eq_true] at h ⊢
  intro q hq
  obtain ⟨p, hpmem, he⟩ := List.mem_map.mp hq
  have hlevel : q.2.level = p.2.level := by
    subst he; by_cases hc : p.1 = id <;> simp [hc, hlv]
  have hparent : q.2.parentId = p.2.parentId := by
    subst he; by_cases hc : p.1 = id <;> simp [hc, hpa]
  have hpred := h p hpmem
  show (match q.2.parentId with
        | none => q.2.level == 0
        | some pid =>
          match lookupNode pid (updateNode t id f).nodes with
          | some par => q.2.level == par.level + 1
          | none => false) = true
  rw [hparent, hlevel]
  cases hpar : p.2.parentId with
  | none =>
    rw [hpar] at hpred
    exact hpred
  | some pid =>
    rw [hpar] at hpred
    have hpred1 : (match lookupNode pid t.nodes with
                   | some par => p.2.level == par.level + 1
                   | none => false) = true := hpred
    show (match lookupNode pid
            (t.nodes.map fun p => if p.1 = id then (p.1, f p.2) else p) with
          | some par => p.2.level == par.level + 1
          | none => false) = true
    rw [lookupNode_map_update]
    by_cases hpid : pid = id
    · subst hpid
      rw [if_pos rfl]
      cases hlu : lookupNode pid t.nodes with
      | none =>
        rw [hlu] at hpred1
        simp at hpred1
      | some par =>
        rw [hlu] at hpred1
        have hpred2 : (p.2.level == par.level + 1) = true := hpred1
        show (p.2.level == (f par).level + 1) = true
        rw [hlv par]
        exact hpred2
    · rw [if_neg hpid]
      exact hpred1

theorem levelOk_append (t : ExecTree) (k : Nat) (n : ExecNode) (rid m : Nat)
    (h : levelOk t = true)
    (hn : (match n.parentId with
           | none => n.level == 0
           | some pid =>
             match lookupNode pid t.nodes with
             | some par => n.level == par.level + 1
             | none => false) = true) :
    levelOk { rootId := rid, nodes := t.nodes ++ [(k, n)], nextId := m } = true := by
  unfold levelOk at h ⊢
  rw [List.all_eq_true] at h ⊢
  intro q hq
  rcases List.mem_append.mp hq with hq | hq
  · have hpred := h q hq
    show (match q.2.parentId with
          | none => q.2.level == 0
          | some pid =>
            match lookupNode pid (t.nodes ++ [(k, n)]) with
            | some par => q.2.level == par.level + 1
            | none => false) = true
    cases hpar : q.2.parentId with
    | none =>
      rw [hpar] at hpred
      exact hpred
    | some pid =>
      rw [hpar] at hpred
      have hpred1 : (match lookupNode pid t.nodes with
                     | some par => q.2.level == par.level + 1
                     | none => false) = true := hpred
      cases hlu : lookupNode pid t.nodes with
      | none =>
        rw [hlu] at hpred1
        simp at hpred1
      | some par =>
        rw [hlu] at hpred1
        show (match lookupNode pid (t.nodes ++ [(k, n)]) with
              | some par => q.2.level == par.level + 1
              | none => false) = true
        rw [lookupNode_append_some hlu]
        exact hpred1
  · have hq1 : q = (k, n) := List.mem_singleton.mp hq
    subst hq1
    show (match n.parentId with
          | none => n.level == 0
          | some pid =>
            match lookupNode pid (t.nodes ++ [(k, n)]) with
            | some par => n.level == par.level + 1
            | none => false) = true
    cases hpar : n.parentId with
    | none =>
      rw [hpar] at hn
      exact hn
    | some pid =>
      rw [hpar] at hn
      have hn1 : (match lookupNode pid t.nodes with
                  | some par => n.level == par.level + 1
                  | none => false) = true := hn
      cases hlu : lookupNode pid t.nodes with
      | none =>
        rw [hlu] at hn1
        simp at hn1
      | some par =>
        rw [hlu] at hn1
        show (match lookupNode pid (t.nodes ++ [(k, n)]) with
              | some par => n.level == par.level + 1
              | none => false) = true
        rw [lookupNode_append_some hlu]
        exact hn1

theorem levelOk_markNodeComplete (t : ExecTree) (nid : Nat) (res : Option String)
    (h : levelOk t = true) : levelOk (markNodeComplete t nid res) = true := by
  unfold markNodeComplete
  split
  · exact h
  · apply levelOk_updateNode _ _ _ ?_ ?_ h
    · intro n
      cases res with
      | none => rfl
      | some r => by_cases hr : (r == "") <;> simp [hr]
    · intro n
      cases res with
      | none => rfl
      | some r => by_cases hr : (r == "") <;> simp [hr]

theorem findParent_lookup (t : ExecTree) (pid : Option Nat) (pidx : Nat)
    (parent : ExecNode) (hnd : (t.nodes.map Prod.fst).Nodup)
    (h : findParent t pid = some (pidx, parent)) :
    lookupNode pidx t.nodes = some parent := by
  unfold findParent at h
  cases pid with
  | some p =>
    have h1 : Option.map (fun n => (p, n)) (lookupNode p t.nodes)
        = some (pidx, parent) := h
    cases hlu : lookupNode p t.nodes with
    | none => rw [hlu] at h1; simp at h1
    | some v =>
      rw [hlu] at h1
      simp at h1
      obtain ⟨he1, he2⟩ := h1
      subst he1; subst he2
      exact hlu
  | none =>
    exact lookupNode_eq_of_mem_nodup hnd (List.mem_of_find?_eq_some h)

theorem levelOk_addCommandNode_noCustom (t : ExecTree) (code lang : Option String)
    (pid : Option Nat) (now : String) (hwf : TreeWF t)
    (hp0 : promptLevel0 t = true) (h : levelOk t = true) :
    levelOk (addCommandNode t code lang pid none now).1 = true := by
  unfold addCommandNode
  cases hfp : findParent t pid with
  | none => exact h
  | some pp =>
    obtain ⟨pidx, parent⟩ := pp
    dsimp only
    rw [insert_fresh_eq t _ hwf.1]
    have hlp : lookupNode pidx t.nodes = some parent :=
      findParent_lookup t pid pidx parent hwf.2 hfp
    apply levelOk_updateNode
    · intro n; rfl
    · intro n; rfl
    apply levelOk_append _ _ _ _ _ h
    show (match lookupNode pidx t.nodes with
          | some par =>
            (if (parent.ntype == "prompt") = true then (1 : Int)
             else parent.level + 1) == par.level + 1
          | none => false) = true
    rw [hlp]
    show ((if (parent.ntype == "prompt") = true then (1 : Int)
           else parent.level + 1) == parent.level + 1) = true
    by_cases hpr : (parent.ntype == "prompt")
    · rw [if_pos hpr]
      have hmem := lookupNode_mem hlp
      have hlv0 : parent.level = 0 := by
        unfold promptLevel0 at hp0
        rw [List.all_eq_true] at hp0
        have h0 := hp0 (pidx, parent) hmem
        simp [hpr] at h0
        exact h0
      rw [hlv0]
      decide
    · rw [if_neg hpr]
      simp

theorem levelOk_markNodeError (t : ExecTree) (nid : Nat) (err now : String)
    (hwf : TreeWF t) (h : levelOk t = true) :
    levelOk (markNodeError t nid err now) = true := by
  unfold markNodeError
  cases hlu : lookupNode nid t.nodes with
  | none => exact h
  | some node =>
    dsimp only
    have h1wf := treeWF_updateNode t nid
      (fun n => { n with state := "error", error := some err }) hwf
    rw [insert_fresh_eq _ _ h1wf.1]
    apply levelOk_updateNode
    · intro n; rfl
    · intro n; rfl
    have hupd : levelOk (updateNode t nid
        (fun n => { n with state := "error", error := some err })) = true :=
      levelOk_updateNode _ _ _ (fun n => rfl) (fun n => rfl) h
    apply levelOk_append _ _ _ _ _ hupd
    have hlu1 : lookupNode nid (updateNode t nid
        (fun n => { n with state := "error", error := some err })).nodes
        = some { node with state := "error", error := some err } := by
      show lookupNode nid (t.nodes.map _) = _
      rw [lookupNode_map_update t.nodes nid
        (fun n => { n with state := "error", error := some err }) nid,
        if_pos rfl, hlu]
      rfl
    show (match lookupNode nid (updateNode t nid
            (fun n => { n with state := "error", error := some err })).nodes with
          | some par => node.level + 1 == par.level + 1
          | none => false) = true
    rw [hlu1]
    simp

/-! ## Routing helper -/

theorem isCodeRequest_of_linux_firstWord (p : String)
    (h : linuxCommands.contains (firstWordOf (jsTrim (jsToLower p))) = true) :
    isCodeRequest p = true := by
  unfold isCodeRequest
  dsimp only
  rw [h]
  simp

/-! ## The claims -/

/-- C10 (counterexample): `stripAnsiCodes` is not idempotent — deleting
the inner `ESC[0m` of `ESC[ ESC[0m 0m` splices the surrounding
characters into a new SGR sequence, which a second application then
removes. -/
theorem c10_strip_ansi_counterexample :
    stripAnsiCodes (stripAnsiCodes "\x1b[\x1b[0m0m")
      ≠ stripAnsiCodes "\x1b[\x1b[0m0m" := by decide

/-- C10 (amended): `stripAnsiCodes` is idempotent on every input whose
first pass leaves no SGR sequence behind — in particular whenever the
removals do not splice new `ESC [ … m` sequences together. -/
theorem c10_strip_ansi_amended (s : String)
    (h : hasSGR (stripAnsiCodes s).data = false) :
    stripAnsiCodes (stripAnsiCodes s) = stripAnsiCodes s := by
  show (⟨stripAnsiAux (stripAnsiCodes s).data.length (stripAnsiCodes s).data⟩ : String)
      = stripAnsiCodes s
  rw [stripAnsiAux_of_not_hasSGR _ _ h]

theorem c10_strip_ansi_amended_witness :
    hasSGR (stripAnsiCodes "\x1b[31mhello\x1b[0m").data = false ∧
    stripAnsiCodes (stripAnsiCodes "\x1b[31mhello\x1b[0m")
      = stripAnsiCodes "\x1b[31mhello\x1b[0m" :=
  ⟨by decide, c10_strip_ansi_amended "\x1b[31mhello\x1b[0m" (by decide)⟩

/-- C9 (counterexample): `renderMessages` interpolates the model-supplied
code-block language tag without `escapeHtml`: a block whose language is
`<img>` reaches the message-list HTML raw, not as `&lt;img&gt;`. -/
theorem c9_escape_html_counterexample :
    strIncludes (renderCodeBlockHtml c9Block) "Code: <img>" = true ∧
    strIncludes (renderCodeBlockHtml c9Block) "Code: &lt;img&gt;" = false := by decide

/-- C9 (amended): `escapeHtml` replaces `&`, `<`, `>` by character
entities, so its output never contains a raw `<` or `>`; the message
content, command text and output, and trace labels and data are passed
through it, but the code-block language tag is not (see the
counterexample). -/
theorem c9_escape_html_amended (s : String) (c : Char)
    (h : c ∈ (escapeHtml s).data) : c ≠ '<' ∧ c ≠ '>' :=
  escapeHtmlList_no_raw s.data c h

theorem c9_escape_html_amended_witness :
    'a' ∈ (escapeHtml "<a>").data ∧ 'a' ≠ '<' ∧ 'a' ≠ '>' :=
  ⟨by decide, c9_escape_html_amended "<a>" 'a' (by decide)⟩

/-- C3: stopping is idempotent — the stop click is a no-op on a
non-looping (terminal) state, and two stops in a row leave the same
state as one. -/
theorem c3_stop_idempotent (s : ChatState) (now now2 : String) :
    (s.isLooping = false → stopClick now s = s) ∧
    stopClick now2 (stopClick now s) = stopClick now s := by
  constructor
  · intro h
    simp [stopClick, h]
  · by_cases h : s.isLooping
    · simp [stopClick, h, addTrace, setLoopingState]
    · simp [stopClick, h]

theorem c3_stop_idempotent_witness : stopClick "t" idleState = idleState :=
  (c3_stop_idempotent idleState "t" "t2").1 rfl

/-- C2 (counterexample): submitting a prompt while a session is active
is a silent early return — the state is unchanged and the outcome is
the same `ignored` as for an empty prompt; no `SessionBusy` (or any
other) failure value exists in the code. -/
theorem c2_session_busy_counterexample :
    sendMessageStart "ls" true false false "t" busyState
      = (busyState, SendAction.ignored) ∧
    sendMessageStart "" true false false "t" idleState
      = (idleState, SendAction.ignored) := by decide

/-- C2 (amended): at most one looper session runs at a time — while
`isLoading` is set, `sendMessage` returns immediately with no effect,
so no second session begins; the rejection is a silent no-op, not a
`SessionBusy` error. -/
theorem c2_session_busy_amended (raw : String)
    (chatMode terminalMode terminalWaiting : Bool) (now : String)
    (s : ChatState) (h : s.isLoading = true) :
    sendMessageStart raw chatMode terminalMode terminalWaiting now s
      = (s, SendAction.ignored) := by
  unfold sendMessageStart
  rw [h]
  simp

theorem c2_session_busy_amended_witness :
    sendMessageStart "mkdir x" true false false "t" busyState
      = (busyState, SendAction.ignored) :=
  c2_session_busy_amended "mkdir x" true false false "t" busyState rfl

/-- C4 (counterexample): the stop handler does not close the SSE trace
stream, so a trace event arriving after the stop is still recorded —
the log grows past the stop marker, and the new tail entry is not the
stop marker. -/
theorem c4_stop_frame_counterexample :
    (traceStreamMessage c4SSE "t2" (stopClick "t1" c4Busy)).traceEntries
      ≠ (stopClick "t1" c4Busy).traceEntries ∧
    ((traceStreamMessage c4SSE "t2" (stopClick "t1" c4Busy)).traceEntries.getLast?).map
        TraceEntry.label ≠ some "Looper Stopped" := by decide

/-- C4 (amended): the stop operation itself finalizes the record as-is —
it appends exactly the single stop marker to the trace log and leaves
the message list and the execution tree unchanged; entries arriving on
the still-open trace stream may however be recorded after it (see the
counterexample). -/
theorem c4_stop_frame_amended (s : ChatState) (now : String)
    (h : s.isLooping = true) :
    (stopClick now s).messages = s.messages ∧
    (stopClick now s).tree = s.tree ∧
    (stopClick now s).traceEntries = s.traceEntries ++ [stopMarker now] := by
  simp [stopClick, h, addTrace, setLoopingState, stopMarker]

theorem c4_stop_frame_amended_witness :
    (stopClick "t" c4Busy).messages = c4Busy.messages ∧
    (stopClick "t" c4Busy).tree = c4Busy.tree ∧
    (stopClick "t" c4Busy).traceEntries = c4Busy.traceEntries ++ [stopMarker "t"] :=
  c4_stop_frame_amended c4Busy "t" rfl

/-- C5 (counterexample): in terminal mode the routing ignores the
classifier — the prompt `ls` is classified as a code request yet is
sent to the terminal-command endpoint, not the looper. -/
theorem c5_routing_counterexample :
    isCodeRequest "ls" = true ∧
    (sendMessageStart "ls" false true false "t" idleState).2
      = SendAction.terminalCommand ∧
    SendAction.terminalCommand ≠ SendAction.looper := by decide

/-- C5 (amended): outside terminal mode, a nonempty prompt submitted
while idle goes to the looper endpoint exactly when `isCodeRequest`
classifies it as code, and to the plain-chat endpoint otherwise; a
prompt whose first word is a recognized Linux command goes to the
looper. -/
theorem c5_routing_amended (raw : String)
    (chatMode terminalMode terminalWaiting : Bool) (now : String)
    (s : ChatState)
    (hterm : (!chatMode && terminalMode) = false)
    (hload : s.isLoading = false)
    (hne : (jsTrim raw == "") = false) :
    ((sendMessageStart raw chatMode terminalMode terminalWaiting now s).2
        = SendAction.looper ↔ isCodeRequest (jsTrim raw) = true) ∧
    ((sendMessageStart raw chatMode terminalMode terminalWaiting now s).2
        = SendAction.chat ↔ isCodeRequest (jsTrim raw) = false) ∧
    (linuxCommands.contains (firstWordOf (jsTrim (jsToLower (jsTrim raw)))) = true
      → (sendMessageStart raw chatMode terminalMode terminalWaiting now s).2
          = SendAction.looper) := by
  have hroute : (sendMessageStart raw chatMode terminalMode terminalWaiting now s).2
      = (if isCodeRequest (jsTrim raw) then SendAction.looper else SendAction.chat) := by
    unfold sendMessageStart
    cases hcr : isCodeRequest (jsTrim raw) <;>
      simp [hne, hload, hterm, hcr]
  refine ⟨?_, ?_, ?_⟩
  · rw [hroute]
    cases hcr : isCodeRequest (jsTrim raw) <;> simp [hcr]
  · rw [hroute]
    cases hcr : isCodeRequest (jsTrim raw) <;> simp [hcr]
  · intro hc
    rw [hroute, isCodeRequest_of_linux_firstWord (jsTrim raw) hc]
    simp

theorem c5_routing_amended_witness :
    ((sendMessageStart "ls -la" true false false "t" idleState).2
        = SendAction.looper ↔ isCodeRequest (jsTrim "ls -la") = true) ∧
    ((sendMessageStart "ls -la" true false false "t" idleState).2
        = SendAction.chat ↔ isCodeRequest (jsTrim "ls -la") = false) ∧
    (linuxCommands.contains (firstWordOf (jsTrim (jsToLower (jsTrim "ls -la")))) = true
      → (sendMessageStart "ls -la" true false false "t" idleState).2
          = SendAction.looper) :=
  c5_routing_amended "ls -la" true false false "t" idleState (by decide) rfl (by decide)

/-- C6: the trace log is append-only — `addTrace` appends exactly its
one new entry at the tail, leaving the earlier entries unchanged in
value and order; the SSE and stop handlers only extend the log (the old
log is a prefix of the new one); only `clearTrace` resets it. -/
theorem c6_trace_append_only (s : ChatState) (ttype label : String)
    (data : TraceData) (now : String) (e : SSEEntry) :
    (addTrace ttype label data now s).traceEntries
      = s.traceEntries ++ [⟨ttype, label, data, now⟩] ∧
    s.traceEntries <+: (traceStreamMessage e now s).traceEntries ∧
    s.traceEntries <+: (stopClick now s).traceEntries ∧
    (clearTrace s).traceEntries = [] := by
  refine ⟨rfl, ?_, ?_, rfl⟩
  · unfold traceStreamMessage
    by_cases h : (e.ttype == "done")
    · rw [if_pos h]
    · rw [if_neg h]
      show s.traceEntries <+: s.traceEntries ++ [⟨e.ttype, e.label, e.data, now⟩]
      exact List.prefix_append _ _
  · unfold stopClick
    by_cases h : s.isLooping
    · rw [if_pos h]
      show s.traceEntries <+: s.traceEntries ++ [stopMarker now]
      exact List.prefix_append _ _
    · rw [if_neg h]

/-- C1 (counterexample): a `process` trace entry carrying level 3 while
the tree holds only its root creates a node attached to the root with
level 3 — the level invariant `level = parent.level + 1` fails. -/
theorem c1_level_invariant_counterexample :
    (lookupNode 1 c1Tree.nodes).map ExecNode.level = some 3 ∧
    ((lookupNode 1 c1Tree.nodes).bind ExecNode.parentId) = some 0 ∧
    (lookupNode 0 c1Tree.nodes).map ExecNode.level = some 0 ∧
    levelOk c1Tree = false := by decide

/-- C1 (amended): the root prompt has level 0 and the invariant
`level = parent.level + 1` is preserved by creating the tree, by adding
a command node without a custom level, by completing a node and by
adding an error child; it can break only when a trace or response entry
supplies a custom level greater than 1 with no node at the matching
depth (see the counterexample). -/
theorem c1_level_invariant_amended (t : ExecTree) (prompt now : String)
    (code lang : Option String) (pid : Option Nat) (nid : Nat)
    (res : Option String) (err : String)
    (hwf : TreeWF t) (hp0 : promptLevel0 t = true) (hlv : levelOk t = true) :
    levelOk (createExecutionTree prompt now) = true ∧
    levelOk (addCommandNode t code lang pid none now).1 = true ∧
    levelOk (markNodeComplete t nid res) = true ∧
    levelOk (markNodeError t nid err now) = true :=
  ⟨rfl,
   levelOk_addCommandNode_noCustom t code lang pid now hwf hp0 hlv,
   levelOk_markNodeComplete t nid res hlv,
   levelOk_markNodeError t nid err now hwf hlv⟩

theorem c1_level_invariant_amended_witness :
    levelOk (markNodeError (createExecutionTree "p" "t0") 0 "boom" "t1") = true :=
  (c1_level_invariant_amended (createExecutionTree "p" "t0") "p" "t1"
    none none none 0 none "boom" (by decide) (by decide) (by decide)).2.2.2

/-- C7 (counterexample): a command node already terminal (`complete`,
result `ok`) is re-marked as `error` by
`updateExecutionTreeFromResponse` when the final response reports a
command with the same code prefix as failed. -/
theorem c7_terminal_immutable_counterexample :
    (lookupNode 1 c7Tree2.nodes).map ExecNode.state = some "complete" ∧
    (lookupNode 1 ((updateExecutionTreeFromResponse c7Resp "t2"
        (some c7Tree2)).getD c7Tree2).nodes).map ExecNode.state
      = some "error" := by decide

/-- C7 (amended): trace-driven updates never mutate a terminal node —
for every node whose state is not `in_progress`,
`updateExecutionTreeFromTrace` leaves its `state`, `result` and `error`
unchanged; `updateExecutionTreeFromResponse` however can overwrite a
terminal node when the response reports a matching command (see the
counterexample). -/
theorem c7_terminal_immutable_amended (e : SSEEntry) (now : String)
    (t : ExecTree) (hwf : TreeWF t) :
    preservesSRE t (updateExecutionTreeFromTrace e now (some t)) :=
  (treeOpsG_wf_preservesSRE (treeOpsG_fromTrace_some e now t) hwf).2

theorem c7_terminal_immutable_amended_witness :
    ∃ n', lookupNode 1 (updateExecutionTreeFromTrace c7SSE "t3"
        (some c7Tree2)).nodes = some n'
      ∧ n'.state = c7Node.state ∧ n'.result = c7Node.result
      ∧ n'.error = c7Node.error :=
  c7_terminal_immutable_amended c7SSE "t3" c7Tree2 (by decide) 1 c7Node
    (by decide) (by decide)

/-- C8: children lists only grow at the tail — every mutating tree
operation (adding a command node, completing a node, failing a node,
the trace-driven update and the response-driven update) maps each
existing node to a node whose old children list is a prefix of the new
one: nothing is removed or reordered. -/
theorem c8_children_append_only (t : ExecTree) (code lang : Option String)
    (pid : Option Nat) (lvl : Option Int) (nid : Nat) (res : Option String)
    (err : String) (e : SSEEntry) (resp : LooperResponse) (now : String)
    (hwf : TreeWF t) :
    childPrefix t (addCommandNode t code lang pid lvl now).1 ∧
    childPrefix t (markNodeComplete t nid res) ∧
    childPrefix t (markNodeError t nid err now) ∧
    childPrefix t (updateExecutionTreeFromTrace e now (some t)) ∧
    childPrefix t ((updateExecutionTreeFromResponse resp now (some t)).getD t) := by
  refine ⟨childPrefix_addCommandNode t code lang pid lvl now hwf,
          childPrefix_markNodeComplete t nid res,
          childPrefix_markNodeError t nid err now hwf, ?_, ?_⟩
  · exact (treeOps_wf_childPrefix
      (treeOpsG_toTreeOps (treeOpsG_fromTrace_some e now t)) hwf).2
  · exact (treeOps_wf_childPrefix (treeOps_fromResponse_some resp now t) hwf).2

theorem c8_children_append_only_witness :
    ∃ n', lookupNode 0 (addCommandNode c8Tree (some "ls") (some "bash")
        none none "t1").1.nodes = some n'
      ∧ c8Root.children <+: n'.children :=
  (c8_children_append_only c8Tree (some "ls") (some "bash") none none 0 none
    "err" c8SSE c8Resp "t1" (by decide)).1 0 c8Root (by decide)

end Chat

